import Mathlib

/-!
# Verification of `stingray/covariancespectrum.py`

A shallow embedding of the `Covariancespectrum` class and its helper
methods, with theorems settling the behavioural claims of the design
specification against the code.

Times and energies are modelled as rationals (`ℚ`); Python dictionaries
(whose keys here are derived energy values, inserted in a deterministic
order) are modelled as insertion-ordered association lists.
-/

set_option maxHeartbeats 1000000

deriving instance DecidableEq for Except

/-- The error outcomes observable from the constructor.  `valueError`
models the `ValueError` numpy raises when a reduction (`min`, `max`) is
applied to an empty array; `assertionError` models a failing Python
`assert` statement.  `insufficientDataError` and `invalidInputError`
model the error classes named by the specification's error taxonomy;
no such classes exist in the source, but the constructors are needed to
state the specification's claims about them. -/
inductive PyErr where
  | valueError
  | assertionError
  | insufficientDataError
  | invalidInputError
deriving DecidableEq

/-- An insertion-ordered dictionary from energy keys to lists of arrival
times, modelling `self.energy_events`. -/
abbrev EDict := List (ℚ × List ℚ)

/-- The keys of a dictionary, in insertion order (`dict.keys()`). -/
def dictKeys (m : EDict) : List ℚ :=
  m.map Prod.fst

/-- Dictionary lookup (`m[k]`), returning the value at the first entry
whose key equals `k`. -/
def dictGet : EDict → ℚ → Option (List ℚ)
  | [], _ => none
  | kv :: m, k => if kv.1 = k then some kv.2 else dictGet m k

/-- Dictionary assignment (`m[k] = v`): replaces the value at an existing
key in place, or appends a new entry at the end, exactly as a Python dict
preserves insertion order on overwrite. -/
def dictSet : EDict → ℚ → List ℚ → EDict
  | [], k, v => [(k, v)]
  | kv :: m, k, v => if kv.1 = k then (k, v) :: m else kv :: dictSet m k v

/-- Dictionary deletion (`del m[k]`). -/
def dictDel (m : EDict) (k : ℚ) : EDict :=
  m.filter (fun kv => !decide (kv.1 = k))

/-- Python's `m.update(acc)`: assign every entry of `acc` into `m` in
order. -/
def dictUpdate (m acc : EDict) : EDict :=
  acc.foldl (fun m kv => dictSet m kv.1 kv.2) m

/-- Python's `sorted` on a list of rationals (ascending). -/
def sortQ (l : List ℚ) : List ℚ :=
  List.insertionSort (· ≤ ·) l

/-- `np.min` over a list; numpy raises `ValueError` on an empty array, so
the empty case is irrelevant wherever this is reached (the constructor
guards it) and defaults to `0`. -/
def listMin : List ℚ → ℚ
  | [] => 0
  | x :: xs => xs.foldl min x

/-- `np.max` over a list, same convention as `listMin`. -/
def listMax : List ℚ → ℚ
  | [] => 0
  | x :: xs => xs.foldl max x

/-- `np.min(event_list.T[1])`: the smallest energy in the event list. -/
def listMinE (el : List (ℚ × ℚ)) : ℚ :=
  listMin (el.map Prod.snd)

/-- `np.max(event_list.T[1])`: the largest energy in the event list. -/
def listMaxE (el : List (ℚ × ℚ)) : ℚ :=
  listMax (el.map Prod.snd)

/-- `np.unique` applied to the energies: the sorted list of distinct
energy values. -/
def uniqueEnergies (el : List (ℚ × ℚ)) : List ℚ :=
  (sortQ (el.map Prod.snd)).dedup

/-- `np.diff`: differences of consecutive elements. -/
def npDiff (l : List ℚ) : List ℚ :=
  List.zipWith (fun a b => b - a) l l.tail

/-- `arr.min()` for a numpy array: `none` models the `ValueError` raised
on an empty array. -/
def listMinQ : List ℚ → Option ℚ
  | [] => none
  | x :: xs => some (xs.foldl min x)

/-- The event times of one energy cell in `_construct_energy_events`:
the branch for the last bin (`energy == max_energy - least_count*0.5`)
uses a bounded-closed energy interval, every other bin a half-open one.
The source filters the energy-sorted event array and then applies
`sorted`; since the extracted values are bare arrival times, this equals
sorting the times of the matching events of the original list. -/
def cellTimes (el : List (ℚ × ℚ)) (lc energy maxE : ℚ) : List ℚ :=
  if energy = maxE - lc / 2 then
    sortQ ((el.filter (fun e => decide (energy - lc / 2 ≤ e.2 ∧ e.2 ≤ energy + lc / 2))).map Prod.fst)
  else
    sortQ ((el.filter (fun e => decide (energy - lc / 2 ≤ e.2 ∧ e.2 < energy + lc / 2))).map Prod.fst)

/-- `_construct_energy_events`: one cell per unique energy except the
last, keyed at `unique[i] + least_count/2`; `least_count` is the minimum
consecutive difference of the unique energies, whose computation
(`np.diff(...).min()`) raises `ValueError` when fewer than two distinct
energies exist. -/
def constructEnergyEvents (el : List (ℚ × ℚ)) : Except PyErr EDict :=
  match listMinQ (npDiff (uniqueEnergies el)) with
  | none => Except.error PyErr.valueError
  | some lc =>
      Except.ok (((uniqueEnergies el).dropLast.map (fun u => u + lc / 2)).map
        (fun k => (k, cellTimes el lc k (listMaxE el))))

/-- The membership test `key >= band[0] and key <= band[1]`. -/
def inBand (b : ℚ × ℚ) (k : ℚ) : Bool :=
  decide (b.1 ≤ k ∧ k ≤ b.2)

/-- The body of the inner loop of `_update_energy_events`: if the cell
key falls inside the band, its event list is appended to the band's
accumulated list and the cell is deleted from the live mapping. -/
def mergeKeyStep (band : ℚ × ℚ) (mid : ℚ) (st : EDict × EDict) (key : ℚ) : EDict × EDict :=
  if inBand band key then
    (dictDel st.1 key,
     dictSet st.2 mid (((dictGet st.2 mid).getD []) ++ ((dictGet st.1 key).getD [])))
  else st

/-- One iteration of the outer loop of `_update_energy_events`: start the
band's entry at `[]` (resetting it if the midpoint key already exists),
then sweep a snapshot of the live mapping's keys. -/
def mergeBandStep (st : EDict × EDict) (band : ℚ × ℚ) : EDict × EDict :=
  (dictKeys st.1).foldl (mergeKeyStep band ((band.1 + band.2) / 2))
    (st.1, dictSet st.2 ((band.1 + band.2) / 2) [])

/-- `_update_energy_events`: with no bands the mapping is untouched;
otherwise each band consumes the live cells in its range into
`energy_events_`, and the leftovers are updated with the band entries. -/
def updateEnergyEvents (bands : Option (List (ℚ × ℚ))) (m : EDict) : EDict :=
  match bands with
  | none => m
  | some bs =>
      let st := bs.foldl mergeBandStep (m, [])
      dictUpdate st.1 st.2

/-- `_init_energy_covar`: the keys of the covariance mapping, in
insertion order — the cell keys when no bands were supplied, else the
band midpoints (a repeated midpoint is inserted once). -/
def initEnergyCovarKeys (bands : Option (List (ℚ × ℚ))) (m : EDict) : List ℚ :=
  match bands with
  | none => dictKeys m
  | some bs =>
      bs.foldl (fun ks band =>
        if (band.1 + band.2) / 2 ∈ ks then ks else ks ++ [(band.1 + band.2) / 2]) []

/-- The reference time-of-arrival stream of `_construct_energy_covar`:
gather the event lists of every key inside the reference band other than
the evaluated key, then sort. -/
def toaRefOf (m : EDict) (r : ℚ × ℚ) (energy : ℚ) : List ℚ :=
  sortQ (m.foldl (fun acc kv =>
    if inBand r kv.1 then (if kv.1 = energy then acc else acc ++ kv.2) else acc) [])

/-- A light curve: bin-centre timestamps and per-bin counts. -/
structure Lightcurve where
  time : List ℚ
  counts : List ℚ
deriving DecidableEq

/-- The number of bins a light curve of span `tseg` and resolution `dt`
has. -/
def numBins (tseg dt : ℚ) : ℕ :=
  (Int.ceil (tseg / dt)).toNat

/-- Modelled from the spec: `Lightcurve.make_lightcurve` is an external
collaborator not part of this source file.  Per §4.4 it converts a
timestamp stream into a uniformly binned count series covering
`[tstart, tstart + tseg)` with bins of width `dt`, whose length is a
function of `(tstart, tseg, dt)` alone. -/
def make_lightcurve (toa : List ℚ) (dt tstart tseg : ℚ) : Lightcurve :=
  { time := (List.range (numBins tseg dt)).map (fun (i : ℕ) => tstart + ((i : ℚ) + 1 / 2) * dt),
    counts := (List.range (numBins tseg dt)).map
      (fun (i : ℕ) => (((toa.filter (fun t =>
        decide (tstart + (i : ℚ) * dt ≤ t ∧ t < tstart + ((i : ℚ) + 1) * dt))).length : ℚ))) }

/-- The arithmetic mean of a list (`np.mean` of a row). -/
def listMean (xs : List ℚ) : ℚ :=
  xs.sum / (xs.length : ℚ)

/-- A row with its mean subtracted. -/
def centeredRow (xs : List ℚ) : List ℚ :=
  xs.map (fun a => a - listMean xs)

/-- Modelled from the spec: `np.cov` is an external numpy routine.  Per
the spec's covariance-primitive contract it is the sample covariance
matrix of the two stacked rows — centred rows multiplied pointwise,
summed, and divided by `N - 1` where `N` is the number of observations
(the length of a row). -/
def np_cov (xs ys : List ℚ) (i j : Fin 2) : ℚ :=
  let row : Fin 2 → List ℚ := fun k => if k = 0 then xs else ys
  (List.zipWith (fun a b => a * b) (centeredRow (row i)) (centeredRow (row j))).sum
    / ((xs.length : ℚ) - 1)

/-- `_compute_covariance`: `np.cov(lc1.counts, lc2.counts)[0][1]`. -/
def compute_covariance (lc1 lc2 : Lightcurve) : ℚ :=
  np_cov lc1.counts lc2.counts 0 1

/-- The covariance value one iteration of the `_construct_energy_covar`
loop computes for the key `energy`. -/
def covarOf (m : EDict) (r : ℚ × ℚ) (dt tstart tseg energy : ℚ) : ℚ :=
  compute_covariance
    (make_lightcurve ((dictGet m energy).getD []) dt tstart tseg)
    (make_lightcurve (toaRefOf m r energy) dt tstart tseg)

/-- One iteration of the `_construct_energy_covar` loop: build the band's
light curve and its reference light curve, check the
`assert len(lc.time) == len(lc_ref.time)` consistency assertion, and
compute the covariance. -/
def covarStep (m : EDict) (r : ℚ × ℚ) (dt tstart tseg energy : ℚ) : Except PyErr ℚ :=
  let lc := make_lightcurve ((dictGet m energy).getD []) dt tstart tseg
  let lcRef := make_lightcurve (toaRefOf m r energy) dt tstart tseg
  if lc.time.length = lcRef.time.length then
    Except.ok (compute_covariance lc lcRef)
  else Except.error PyErr.assertionError

/-- The `for energy in self.energy_covar.keys()` loop, accumulating the
per-key covariances in key order. -/
def covarLoop (m : EDict) (r : ℚ × ℚ) (dt tstart tseg : ℚ) : List ℚ → Except PyErr (List (ℚ × ℚ))
  | [] => Except.ok []
  | e :: es =>
      match covarStep m r dt tstart tseg e with
      | Except.error err => Except.error err
      | Except.ok c =>
          match covarLoop m r dt tstart tseg es with
          | Except.error err => Except.error err
          | Except.ok rest => Except.ok ((e, c) :: rest)

/-- `_construct_energy_covar` (after `_init_energy_covar`): the final
mapping from band/cell key to covariance, in key order — also the row
order of the stacked `self.covar` table. -/
def constructEnergyCovar (bands : Option (List (ℚ × ℚ))) (m : EDict) (r : ℚ × ℚ)
    (dt tstart tseg : ℚ) : Except PyErr (List (ℚ × ℚ)) :=
  covarLoop m r dt tstart tseg (initEnergyCovarKeys bands m)

/-- The state `Covariancespectrum.__init__` leaves behind on success. -/
structure CovSpec where
  min_energy : ℚ
  max_energy : ℚ
  min_time : ℚ
  max_time : ℚ
  dt : ℚ
  ref_band_interest : ℚ × ℚ
  band_interest : Option (List (ℚ × ℚ))
  energy_events : EDict
  energy_covar : List (ℚ × ℚ)
deriving DecidableEq

/-- Read a validated 2-element list as an ordered pair. -/
def pairOf (l : List ℚ) : ℚ × ℚ :=
  (l.getD 0 0, l.getD 1 0)

/-- `Covariancespectrum.__init__`: compute the global energy/time
extrema (numpy raises `ValueError` on an empty event list), default the
reference band, run the two shape `assert`s, then partition, merge and
assemble.  The `type(...) in (list, tuple)` asserts have no counterpart
here because the embedding is typed; the length-2 asserts are modelled
faithfully. -/
def covInit (event_list : List (ℚ × ℚ)) (dt : ℚ) (band_interest : Option (List (List ℚ)))
    (ref_band_interest : Option (List ℚ)) : Except PyErr CovSpec :=
  if event_list.isEmpty then Except.error PyErr.valueError else
  let minE := listMinE event_list
  let maxE := listMaxE event_list
  let minT := listMin (event_list.map Prod.fst)
  let maxT := listMax (event_list.map Prod.fst)
  let ref := ref_band_interest.getD [minE, maxE]
  if ref.length = 2 then
    if (band_interest.getD []).all (fun b => b.length = 2) then
      let bands : Option (List (ℚ × ℚ)) := band_interest.map (fun bs => bs.map pairOf)
      match constructEnergyEvents event_list with
      | Except.error err => Except.error err
      | Except.ok ee0 =>
          let ee := updateEnergyEvents bands ee0
          match constructEnergyCovar bands ee (pairOf ref) dt minT (maxT - minT) with
          | Except.error err => Except.error err
          | Except.ok covar =>
              Except.ok { min_energy := minE, max_energy := maxE, min_time := minT,
                          max_time := maxT, dt := dt, ref_band_interest := pairOf ref,
                          band_interest := bands, energy_events := ee, energy_covar := covar }
    else Except.error PyErr.assertionError
  else Except.error PyErr.assertionError

/-! ## Dictionary lemmas -/

theorem dictKeys_cons (kv : ℚ × List ℚ) (m : EDict) :
    dictKeys (kv :: m) = kv.1 :: dictKeys m := rfl

theorem dictGet_eq_none {m : EDict} {k : ℚ} (h : k ∉ dictKeys m) : dictGet m k = none := by
  induction m with
  | nil => rfl
  | cons kv m ih =>
      rw [dictKeys_cons, List.mem_cons] at h
      push_neg at h
      rw [dictGet, if_neg (Ne.symm h.1), ih h.2]

theorem dictGet_dictSet_self (m : EDict) (k : ℚ) (v : List ℚ) :
    dictGet (dictSet m k v) k = some v := by
  induction m with
  | nil => simp [dictSet, dictGet]
  | cons kv m ih =>
      by_cases h : kv.1 = k
      · simp [dictSet, dictGet, h]
      · simp [dictSet, dictGet, h, ih]

theorem dictGet_dictSet_ne (m : EDict) {k k' : ℚ} (v : List ℚ) (h : k' ≠ k) :
    dictGet (dictSet m k v) k' = dictGet m k' := by
  induction m with
  | nil =>
      show dictGet [(k, v)] k' = none
      rw [dictGet, if_neg (Ne.symm h)]
      rfl
  | cons kv m ih =>
      by_cases hk : kv.1 = k
      · subst hk
        simp only [dictSet, if_pos rfl]
        simp only [dictGet]
        rw [if_neg (fun hh => h hh.symm), if_neg (fun hh => h hh.symm)]
      · simp only [dictSet, if_neg hk]
        simp only [dictGet, ih]

theorem dictSet_dictSet (m : EDict) (k : ℚ) (v w : List ℚ) :
    dictSet (dictSet m k v) k w = dictSet m k w := by
  induction m with
  | nil => simp [dictSet]
  | cons kv m ih =>
      by_cases h : kv.1 = k
      · simp [dictSet, h]
      · simp [dictSet, h, ih]

theorem dictSet_eq_of_get {m : EDict} {k : ℚ} {v : List ℚ} (h : dictGet m k = some v) :
    dictSet m k v = m := by
  induction m with
  | nil => simp [dictGet] at h
  | cons kv m ih =>
      cases kv with
      | mk a b =>
          by_cases hk : a = k
          · rw [dictGet, if_pos hk] at h
            simp only at h
            rw [dictSet]
            simp only [if_pos hk]
            rw [← hk, ← Option.some_inj.1 h]
          · rw [dictGet, if_neg hk] at h
            rw [dictSet]
            simp only [if_neg hk]
            rw [ih h]

theorem dictGet_append {p m : EDict} {k : ℚ} (h : k ∉ dictKeys p) :
    dictGet (p ++ m) k = dictGet m k := by
  induction p with
  | nil => rfl
  | cons kv p ih =>
      rw [dictKeys_cons, List.mem_cons] at h
      push_neg at h
      rw [List.cons_append, dictGet, if_neg (Ne.symm h.1), ih h.2]

theorem dictDel_eq_self {m : EDict} {k : ℚ} (h : k ∉ dictKeys m) : dictDel m k = m := by
  induction m with
  | nil => rfl
  | cons kv m ih =>
      rw [dictKeys_cons, List.mem_cons] at h
      push_neg at h
      have h1 : (!decide (kv.1 = k)) = true := by
        simp [Ne.symm h.1]
      rw [dictDel, List.filter_cons, if_pos h1]
      have := ih h.2
      rw [dictDel] at this
      rw [this]

theorem dictDel_append (p m : EDict) (k : ℚ) :
    dictDel (p ++ m) k = dictDel p k ++ dictDel m k :=
  List.filter_append _ _

theorem dictKeys_filter (m : EDict) (p : ℚ × List ℚ → Bool) :
    (dictKeys (m.filter p)).Sublist (dictKeys m) :=
  List.Sublist.map _ (List.filter_sublist m)

theorem dictUpdate_cons (m : EDict) (kv : ℚ × List ℚ) (acc : EDict) :
    dictUpdate m (kv :: acc) = dictUpdate (dictSet m kv.1 kv.2) acc := rfl

theorem dictUpdate_nil (m : EDict) : dictUpdate m [] = m := rfl

theorem dictKeys_append (p q : EDict) : dictKeys (p ++ q) = dictKeys p ++ dictKeys q :=
  List.map_append _ _ _

/-- Sweeping the keys of `m` (with a prefix `p` of the live mapping left
untouched) moves every in-band cell of `m` into the band's entry of the
accumulator, in mapping order, and deletes it from the live mapping. -/
theorem mergeKeyStep_foldl (b : ℚ × ℚ) (mid : ℚ) :
    ∀ (m p acc : EDict) (v0 : List ℚ),
      (dictKeys m).Nodup →
      (∀ k ∈ dictKeys m, k ∉ dictKeys p) →
      dictGet acc mid = some v0 →
      (dictKeys m).foldl (mergeKeyStep b mid) (p ++ m, acc)
        = (p ++ m.filter (fun kv => !inBand b kv.1),
           dictSet acc mid (v0 ++ ((m.filter (fun kv => inBand b kv.1)).map Prod.snd).flatten))
  | [], p, acc, v0, _, _, hget => by
      simp only [dictKeys, List.map_nil, List.foldl_nil, List.filter_nil, List.map_nil,
        List.flatten_nil, List.append_nil, dictSet_eq_of_get hget]
  | (k, v) :: m', p, acc, v0, hnd, hdisj, hget => by
      rw [dictKeys_cons] at hnd hdisj ⊢
      have hkm' : k ∉ dictKeys m' := (List.nodup_cons.1 hnd).1
      have hnd' : (dictKeys m').Nodup := (List.nodup_cons.1 hnd).2
      have hkp : k ∉ dictKeys p := hdisj k (List.mem_cons_self _ _)
      have hdisj' : ∀ k' ∈ dictKeys m', k' ∉ dictKeys p :=
        fun k' hk' => hdisj k' (List.mem_cons_of_mem _ hk')
      rw [List.foldl_cons]
      by_cases hb : inBand b ((k : ℚ))
      · have hstep : mergeKeyStep b mid (p ++ (k, v) :: m', acc) k
            = (p ++ m', dictSet acc mid (v0 ++ v)) := by
          rw [mergeKeyStep, if_pos hb]
          have h1 : dictGet (p ++ (k, v) :: m') k = some v := by
            rw [dictGet_append hkp, dictGet, if_pos rfl]
          have h2 : dictDel (p ++ (k, v) :: m') k = p ++ m' := by
            rw [dictDel_append, dictDel_eq_self hkp]
            show p ++ List.filter _ ((k, v) :: m') = p ++ m'
            rw [List.filter_cons]
            simp only [decide_True, Bool.not_true, Bool.false_eq_true, if_false]
            have := dictDel_eq_self hkm'
            rw [dictDel] at this
            rw [this]
          rw [h1, h2, hget]
          rfl
        rw [hstep,
          mergeKeyStep_foldl b mid m' p (dictSet acc mid (v0 ++ v)) (v0 ++ v) hnd' hdisj'
            (dictGet_dictSet_self acc mid (v0 ++ v)),
          dictSet_dictSet, List.filter_cons, List.filter_cons]
        simp only [hb, Bool.not_true, Bool.false_eq_true, if_false, if_pos]
        simp [List.append_assoc]
      · have hstep : mergeKeyStep b mid (p ++ (k, v) :: m', acc) k
            = (p ++ (k, v) :: m', acc) := by
          rw [mergeKeyStep, if_neg (by simp [hb])]
        have hsplit : p ++ (k, v) :: m' = (p ++ [(k, v)]) ++ m' := by
          simp
        have hdisj'' : ∀ k' ∈ dictKeys m', k' ∉ dictKeys (p ++ [(k, v)]) := by
          intro k' hk'
          rw [dictKeys_append]
          simp only [List.mem_append]
          push_neg
          refine ⟨hdisj' k' hk', ?_⟩
          show k' ∉ dictKeys [(k, v)]
          simp only [dictKeys, List.map_cons, List.map_nil, List.mem_singleton]
          exact fun hh => hkm' (hh ▸ hk')
        rw [hstep, hsplit,
          mergeKeyStep_foldl b mid m' (p ++ [(k, v)]) acc v0 hnd' hdisj'' hget,
          List.filter_cons, List.filter_cons]
        simp only [hb, Bool.not_false, if_pos, Bool.false_eq_true, if_false]
        rw [List.append_assoc, List.singleton_append]

/-- One full band pass of `_update_energy_events` on a mapping with
distinct keys: the in-band cells leave the live mapping and their lists
are concatenated, in mapping order, into the band's accumulator entry
(which is first reset to `[]`). -/
theorem mergeBandStep_eq (b : ℚ × ℚ) (m acc : EDict) (h : (dictKeys m).Nodup) :
    mergeBandStep (m, acc) b
      = (m.filter (fun kv => !inBand b kv.1),
         dictSet acc ((b.1 + b.2) / 2)
           (((m.filter (fun kv => inBand b kv.1)).map Prod.snd).flatten)) := by
  have h0 : ∀ k ∈ dictKeys m, k ∉ dictKeys ([] : EDict) := fun k _ => List.not_mem_nil k
  have hmain := mergeKeyStep_foldl b ((b.1 + b.2) / 2) m []
    (dictSet acc ((b.1 + b.2) / 2) []) [] h h0
    (dictGet_dictSet_self acc ((b.1 + b.2) / 2) [])
  rw [mergeBandStep]
  simpa [dictSet_dictSet] using hmain

/-- `_update_energy_events` with a single band whose range contains every
cell key: all cells are merged into the single midpoint entry. -/
theorem updateEnergyEvents_single (b : ℚ × ℚ) (m : EDict)
    (hnd : (dictKeys m).Nodup) (hall : ∀ k ∈ dictKeys m, inBand b k = true) :
    updateEnergyEvents (some [b]) m
      = [((b.1 + b.2) / 2, (m.map Prod.snd).flatten)] := by
  rw [updateEnergyEvents]
  simp only [List.foldl_cons, List.foldl_nil]
  rw [mergeBandStep_eq b m [] hnd]
  have h1 : m.filter (fun kv => !inBand b kv.1) = [] := by
    rw [List.filter_eq_nil_iff]
    intro kv hkv
    simp [hall kv.1 (List.mem_map_of_mem Prod.fst hkv)]
  have h2 : m.filter (fun kv => inBand b kv.1) = m :=
    List.filter_eq_self.2 (fun kv hkv => hall kv.1 (List.mem_map_of_mem Prod.fst hkv))
  rw [h1, h2]
  rfl

/-- `_update_energy_events` with two bands: the first band consumes every
cell in its range; the second gathers only cells in its own range that
the first did not already consume. -/
theorem updateEnergyEvents_two (b1 b2 : ℚ × ℚ) (m : EDict) (hnd : (dictKeys m).Nodup) :
    updateEnergyEvents (some [b1, b2]) m
      = dictUpdate
          ((m.filter (fun kv => !inBand b1 kv.1)).filter (fun kv => !inBand b2 kv.1))
          (dictSet
            (dictSet [] ((b1.1 + b1.2) / 2)
              (((m.filter (fun kv => inBand b1 kv.1)).map Prod.snd).flatten))
            ((b2.1 + b2.2) / 2)
            ((((m.filter (fun kv => !inBand b1 kv.1)).filter
                (fun kv => inBand b2 kv.1)).map Prod.snd).flatten)) := by
  rw [updateEnergyEvents]
  simp only [List.foldl_cons, List.foldl_nil]
  rw [mergeBandStep_eq b1 m [] hnd]
  rw [mergeBandStep_eq b2 _ _ (List.Nodup.sublist (dictKeys_filter m _) hnd)]

/-- The accumulator built by two bands with distinct midpoints is the
two-entry dictionary of their gathered lists. -/
theorem dictSet_pair_ne {k1 k2 : ℚ} (v1 v2 : List ℚ) (hne : k1 ≠ k2) :
    dictSet (dictSet ([] : EDict) k1 v1) k2 v2 = [(k1, v1), (k2, v2)] := by
  show dictSet [(k1, v1)] k2 v2 = _
  simp only [dictSet, if_neg hne]

/-- Looking up the second band's midpoint after a two-band merge (the
midpoints being distinct): only cells the first band did not consume
contribute. -/
theorem updateTwo_get_second (b1 b2 : ℚ × ℚ) (m : EDict) (hnd : (dictKeys m).Nodup)
    (hne : (b1.1 + b1.2) / 2 ≠ (b2.1 + b2.2) / 2) :
    dictGet (updateEnergyEvents (some [b1, b2]) m) ((b2.1 + b2.2) / 2)
      = some ((((m.filter (fun kv => !inBand b1 kv.1)).filter
          (fun kv => inBand b2 kv.1)).map Prod.snd).flatten) := by
  rw [updateEnergyEvents_two b1 b2 m hnd, dictSet_pair_ne _ _ hne,
    dictUpdate_cons, dictUpdate_cons, dictUpdate_nil]
  exact dictGet_dictSet_self _ _ _

/-- Looking up the first band's midpoint after a two-band merge (the
midpoints being distinct): every cell in the first band's range
contributes, and the second band does not disturb the entry. -/
theorem updateTwo_get_first (b1 b2 : ℚ × ℚ) (m : EDict) (hnd : (dictKeys m).Nodup)
    (hne : (b1.1 + b1.2) / 2 ≠ (b2.1 + b2.2) / 2) :
    dictGet (updateEnergyEvents (some [b1, b2]) m) ((b1.1 + b1.2) / 2)
      = some (((m.filter (fun kv => inBand b1 kv.1)).map Prod.snd).flatten) := by
  rw [updateEnergyEvents_two b1 b2 m hnd, dictSet_pair_ne _ _ hne,
    dictUpdate_cons, dictUpdate_cons, dictUpdate_nil]
  rw [dictGet_dictSet_ne _ _ hne]
  exact dictGet_dictSet_self _ _ _

/-- Looking up the shared midpoint after a two-band merge whose midpoints
coincide: the second band's reset discards everything the first band
gathered, leaving only cells of the second band's range that the first
band did not consume. -/
theorem updateTwo_get_samemid (b1 b2 : ℚ × ℚ) (m : EDict) (hnd : (dictKeys m).Nodup)
    (hmid : (b1.1 + b1.2) / 2 = (b2.1 + b2.2) / 2) :
    dictGet (updateEnergyEvents (some [b1, b2]) m) ((b2.1 + b2.2) / 2)
      = some ((((m.filter (fun kv => !inBand b1 kv.1)).filter
          (fun kv => inBand b2 kv.1)).map Prod.snd).flatten) := by
  rw [updateEnergyEvents_two b1 b2 m hnd, ← hmid, dictSet_dictSet]
  rw [show dictSet ([] : EDict) ((b1.1 + b1.2) / 2)
        ((((m.filter (fun kv => !inBand b1 kv.1)).filter
          (fun kv => inBand b2 kv.1)).map Prod.snd).flatten)
      = [((b1.1 + b1.2) / 2, (((m.filter (fun kv => !inBand b1 kv.1)).filter
          (fun kv => inBand b2 kv.1)).map Prod.snd).flatten)]
    from rfl]
  rw [dictUpdate_cons, dictUpdate_nil]
  exact dictGet_dictSet_self _ _ _

/-! ## Reference-stream lemmas -/

theorem sortQ_sorted (l : List ℚ) : (sortQ l).Sorted (· ≤ ·) :=
  List.sorted_insertionSort _ l

theorem sortQ_perm (l : List ℚ) : (sortQ l).Perm l :=
  List.perm_insertionSort _ l

/-- The gathering loop of `_construct_energy_covar` collects exactly the
values of the in-reference-range entries other than the evaluated key,
in mapping order. -/
theorem toaRefFold_eq (r : ℚ × ℚ) (energy : ℚ) :
    ∀ (m : EDict) (init : List ℚ),
      m.foldl (fun acc kv =>
          if inBand r kv.1 then (if kv.1 = energy then acc else acc ++ kv.2) else acc) init
        = init ++ ((m.filter (fun kv => inBand r kv.1 && !decide (kv.1 = energy))).map
            Prod.snd).flatten
  | [], init => by simp
  | kv :: m', init => by
      rw [List.foldl_cons, List.filter_cons]
      by_cases hr : inBand r kv.1 = true
      · by_cases he : kv.1 = energy
        · have hp : (inBand r kv.1 && !decide (kv.1 = energy)) = false := by
            simp [he]
          rw [if_pos hr, if_pos he, hp]
          simp only [Bool.false_eq_true, if_false]
          exact toaRefFold_eq r energy m' init
        · have hp : (inBand r kv.1 && !decide (kv.1 = energy)) = true := by
            simp [hr, he]
          rw [if_pos hr, if_neg he, hp, if_pos rfl,
            toaRefFold_eq r energy m' (init ++ kv.2),
            List.map_cons, List.flatten_cons, List.append_assoc]
      · have hp : (inBand r kv.1 && !decide (kv.1 = energy)) = false := by
          simp [hr]
        rw [if_neg hr, hp]
        simp only [Bool.false_eq_true, if_false]
        exact toaRefFold_eq r energy m' init

/-- `toa_ref` as a sorted flattening of the filtered mapping. -/
theorem toaRefOf_eq (m : EDict) (r : ℚ × ℚ) (energy : ℚ) :
    toaRefOf m r energy
      = sortQ (((m.filter (fun kv => inBand r kv.1 && !decide (kv.1 = energy))).map
          Prod.snd).flatten) := by
  rw [toaRefOf, toaRefFold_eq r energy m [], List.nil_append]

/-! ## Covariance-loop lemmas -/

theorem make_lightcurve_time_length (toa : List ℚ) (dt tstart tseg : ℚ) :
    (make_lightcurve toa dt tstart tseg).time.length = numBins tseg dt := by
  rw [show (make_lightcurve toa dt tstart tseg).time
      = (List.range (numBins tseg dt)).map (fun (i : ℕ) => tstart + ((i : ℚ) + 1 / 2) * dt)
    from rfl, List.length_map, List.length_range]

/-- The per-band consistency assertion always passes: both light curves
are built with the same `(tstart, tseg, dt)`, so their bin counts agree. -/
theorem covarStep_eq (m : EDict) (r : ℚ × ℚ) (dt tstart tseg energy : ℚ) :
    covarStep m r dt tstart tseg energy = Except.ok (covarOf m r dt tstart tseg energy) := by
  rw [covarStep, covarOf]
  simp only [make_lightcurve_time_length, if_pos]

theorem covarLoop_eq (m : EDict) (r : ℚ × ℚ) (dt tstart tseg : ℚ) :
    ∀ ks : List ℚ,
      covarLoop m r dt tstart tseg ks
        = Except.ok (ks.map (fun e => (e, covarOf m r dt tstart tseg e)))
  | [] => rfl
  | e :: es => by
      rw [covarLoop, covarStep_eq, covarLoop_eq m r dt tstart tseg es, List.map_cons]

theorem constructEnergyCovar_eq (bands : Option (List (ℚ × ℚ))) (m : EDict) (r : ℚ × ℚ)
    (dt tstart tseg : ℚ) :
    constructEnergyCovar bands m r dt tstart tseg
      = Except.ok ((initEnergyCovarKeys bands m).map
          (fun e => (e, covarOf m r dt tstart tseg e))) :=
  covarLoop_eq m r dt tstart tseg _

/-! ## Partitioner structure lemmas -/

theorem foldl_min_le_init : ∀ (l : List ℚ) (a : ℚ), l.foldl min a ≤ a
  | [], a => le_refl a
  | x :: xs, a => by
      rw [List.foldl_cons]
      exact le_trans (foldl_min_le_init xs (min a x)) (min_le_left a x)

theorem foldl_min_le : ∀ (l : List ℚ) (a y : ℚ), y ∈ l → l.foldl min a ≤ y
  | x :: xs, a, y, hy => by
      rw [List.foldl_cons]
      rcases List.mem_cons.1 hy with h | h
      · subst h
        exact le_trans (foldl_min_le_init xs (min a y)) (min_le_right a y)
      · exact foldl_min_le xs (min a x) y h

theorem foldl_min_mem : ∀ (l : List ℚ) (a : ℚ), l.foldl min a = a ∨ l.foldl min a ∈ l
  | [], a => Or.inl rfl
  | x :: xs, a => by
      rw [List.foldl_cons]
      rcases foldl_min_mem xs (min a x) with h | h
      · rcases min_choice a x with hm | hm
        · exact Or.inl (h.trans hm)
        · exact Or.inr (List.mem_cons.2 (Or.inl (h.trans hm)))
      · exact Or.inr (List.mem_cons.2 (Or.inr h))

theorem foldl_max_ge_init : ∀ (l : List ℚ) (a : ℚ), a ≤ l.foldl max a
  | [], a => le_refl a
  | x :: xs, a => by
      rw [List.foldl_cons]
      exact le_trans (le_max_left a x) (foldl_max_ge_init xs (max a x))

theorem foldl_max_ge : ∀ (l : List ℚ) (a y : ℚ), y ∈ l → y ≤ l.foldl max a
  | x :: xs, a, y, hy => by
      rw [List.foldl_cons]
      rcases List.mem_cons.1 hy with h | h
      · subst h
        exact le_trans (le_max_right a y) (foldl_max_ge_init xs (max a y))
      · exact foldl_max_ge xs (max a x) y h

theorem listMin_le {l : List ℚ} {y : ℚ} (h : y ∈ l) : listMin l ≤ y := by
  cases l with
  | nil => cases h
  | cons x xs =>
      rcases List.mem_cons.1 h with hh | hh
      · exact hh ▸ foldl_min_le_init xs x
      · exact foldl_min_le xs x y hh

theorem le_listMax {l : List ℚ} {y : ℚ} (h : y ∈ l) : y ≤ listMax l := by
  cases l with
  | nil => cases h
  | cons x xs =>
      rcases List.mem_cons.1 h with hh | hh
      · exact hh ▸ foldl_max_ge_init xs x
      · exact foldl_max_ge xs x y hh

theorem listMinQ_le {l : List ℚ} {c y : ℚ} (h : listMinQ l = some c) (hy : y ∈ l) : c ≤ y := by
  cases l with
  | nil => cases hy
  | cons x xs =>
      have hc : xs.foldl min x = c := Option.some_inj.1 h
      rcases List.mem_cons.1 hy with hh | hh
      · exact hc ▸ hh ▸ foldl_min_le_init xs x
      · exact hc ▸ foldl_min_le xs x y hh

theorem listMinQ_mem {l : List ℚ} {c : ℚ} (h : listMinQ l = some c) : c ∈ l := by
  cases l with
  | nil => cases h
  | cons x xs =>
      have hc : xs.foldl min x = c := Option.some_inj.1 h
      rcases foldl_min_mem xs x with hh | hh
      · exact List.mem_cons.2 (Or.inl (hc ▸ hh.symm).symm)
      · exact List.mem_cons.2 (Or.inr (hc ▸ hh))

theorem mem_uniqueEnergies {el : List (ℚ × ℚ)} {x : ℚ} :
    x ∈ uniqueEnergies el ↔ x ∈ el.map Prod.snd :=
  List.mem_dedup.trans (sortQ_perm (el.map Prod.snd)).mem_iff

theorem uniqueEnergies_nodup (el : List (ℚ × ℚ)) : (uniqueEnergies el).Nodup :=
  List.nodup_dedup _

theorem uniqueEnergies_sorted (el : List (ℚ × ℚ)) :
    (uniqueEnergies el).Sorted (· < ·) := by
  have hle : (uniqueEnergies el).Sorted (· ≤ ·) :=
    List.Pairwise.sublist (List.dedup_sublist _) (sortQ_sorted (el.map Prod.snd))
  have hne : (uniqueEnergies el).Pairwise (· ≠ ·) := uniqueEnergies_nodup el
  exact (hle.and hne).imp (fun h => lt_of_le_of_ne h.1 h.2)

theorem npDiff_cons₂ (x y : ℚ) (t : List ℚ) :
    npDiff (x :: y :: t) = (y - x) :: npDiff (y :: t) := rfl

theorem npDiff_pos : ∀ {l : List ℚ}, l.Sorted (· < ·) → ∀ x ∈ npDiff l, 0 < x
  | [], _, x, hx => by cases hx
  | [_], _, x, hx => by cases hx
  | a :: b :: t, h, x, hx => by
      rw [npDiff_cons₂] at hx
      have hab : a < b := (List.sorted_cons.1 h).1 b (List.mem_cons_self b t)
      rcases List.mem_cons.1 hx with hh | hh
      · exact hh ▸ sub_pos.2 hab
      · exact npDiff_pos (List.sorted_cons.1 h).2 x hh

theorem exists_ge_add : ∀ {l : List ℚ} {c : ℚ}, (∀ x ∈ npDiff l, c ≤ x) →
    ∀ {u : ℚ}, u ∈ l.dropLast → ∃ w ∈ l, u + c ≤ w
  | [], _, _, u, hu => by cases hu
  | [_], _, _, u, hu => by cases hu
  | a :: b :: t, c, hd, u, hu => by
      rw [List.dropLast_cons₂] at hu
      rcases List.mem_cons.1 hu with hh | hh
      · refine ⟨b, List.mem_cons.2 (Or.inr (List.mem_cons_self b t)), ?_⟩
        have : c ≤ b - a := hd (b - a) (by rw [npDiff_cons₂]; exact List.mem_cons_self _ _)
        subst hh
        linarith
      · have hd' : ∀ x ∈ npDiff (b :: t), c ≤ x :=
          fun x hx => hd x (by rw [npDiff_cons₂]; exact List.mem_cons_of_mem _ hx)
        rcases exists_ge_add hd' hh with ⟨w, hw, hwle⟩
        exact ⟨w, List.mem_cons.2 (Or.inr hw), hwle⟩

/-- Inversion for a successful `_construct_energy_events`. -/
theorem constructEnergyEvents_ok {el : List (ℚ × ℚ)} {m : EDict}
    (h : constructEnergyEvents el = Except.ok m) :
    ∃ lc, listMinQ (npDiff (uniqueEnergies el)) = some lc ∧
      m = ((uniqueEnergies el).dropLast.map (fun u => u + lc / 2)).map
        (fun k => (k, cellTimes el lc k (listMaxE el))) := by
  rw [constructEnergyEvents] at h
  cases hq : listMinQ (npDiff (uniqueEnergies el)) with
  | none =>
      rw [hq] at h
      exact absurd h (by simp)
  | some lc =>
      rw [hq] at h
      exact ⟨lc, rfl, (Except.ok.inj h).symm⟩

/-- The only failure `_construct_energy_events` can produce is the numpy
`ValueError` from reducing an empty difference array. -/
theorem constructEnergyEvents_error {el : List (ℚ × ℚ)} {err : PyErr}
    (h : constructEnergyEvents el = Except.error err) : err = PyErr.valueError := by
  rw [constructEnergyEvents] at h
  cases hq : listMinQ (npDiff (uniqueEnergies el)) with
  | none =>
      rw [hq] at h
      exact (Except.error.inj h).symm
  | some lc =>
      rw [hq] at h
      exact absurd h (by simp)

/-- The least count is positive: unique energies are strictly
increasing. -/
theorem leastCount_pos {el : List (ℚ × ℚ)} {lc : ℚ}
    (hq : listMinQ (npDiff (uniqueEnergies el)) = some lc) : 0 < lc :=
  npDiff_pos (uniqueEnergies_sorted el) lc (listMinQ_mem hq)

/-- Every cell key lies inside the full observed energy range. -/
theorem cellKey_in_range {el : List (ℚ × ℚ)} {lc : ℚ}
    (hq : listMinQ (npDiff (uniqueEnergies el)) = some lc) :
    ∀ k ∈ (uniqueEnergies el).dropLast.map (fun u => u + lc / 2),
      listMinE el ≤ k ∧ k ≤ listMaxE el := by
  intro k hk
  rcases List.mem_map.1 hk with ⟨u, hu, rfl⟩
  have hlc : 0 < lc := leastCount_pos hq
  have humem : u ∈ uniqueEnergies el :=
    (List.dropLast_sublist (uniqueEnergies el)).subset hu
  have huE : u ∈ el.map Prod.snd := mem_uniqueEnergies.1 humem
  constructor
  · have h1 : listMinE el ≤ u := listMin_le huE
    have h2 : (0 : ℚ) ≤ lc / 2 := by linarith
    calc listMinE el ≤ u := h1
      _ ≤ u + lc / 2 := by linarith
  · have hd : ∀ x ∈ npDiff (uniqueEnergies el), lc ≤ x := fun x hx => listMinQ_le hq hx
    rcases exists_ge_add hd hu with ⟨w, hw, hwle⟩
    have hwE : w ≤ listMaxE el := le_listMax (mem_uniqueEnergies.1 hw)
    calc u + lc / 2 ≤ u + lc := by linarith
      _ ≤ w := hwle
      _ ≤ listMaxE el := hwE

/-- The cell keys are pairwise distinct. -/
theorem cellKeys_nodup {el : List (ℚ × ℚ)} (lc : ℚ) :
    ((uniqueEnergies el).dropLast.map (fun u => u + lc / 2)).Nodup :=
  List.Nodup.map (fun a b h => by linarith)
    (List.Nodup.sublist (List.dropLast_sublist _) (uniqueEnergies_nodup el))

/-- Merging the partitioner's cells with the single full-range band
collapses the whole mapping into one midpoint entry holding the
concatenation of every cell's event list. -/
theorem updateSingle_of_partition {el : List (ℚ × ℚ)} {m : EDict}
    (h : constructEnergyEvents el = Except.ok m) :
    updateEnergyEvents (some [(listMinE el, listMaxE el)]) m
      = [((listMinE el + listMaxE el) / 2, (m.map Prod.snd).flatten)] := by
  rcases constructEnergyEvents_ok h with ⟨lc, hq, rfl⟩
  set keysL := (uniqueEnergies el).dropLast.map (fun u => u + lc / 2) with hkeys
  have hdk : dictKeys (keysL.map (fun k => (k, cellTimes el lc k (listMaxE el)))) = keysL := by
    rw [dictKeys, List.map_map]
    exact List.map_id keysL
  have hnd : (dictKeys (keysL.map (fun k => (k, cellTimes el lc k (listMaxE el))))).Nodup := by
    rw [hdk]
    exact cellKeys_nodup lc
  have hall : ∀ k ∈ dictKeys (keysL.map (fun k => (k, cellTimes el lc k (listMaxE el)))),
      inBand (listMinE el, listMaxE el) k = true := by
    intro k hk
    rw [hdk] at hk
    have := cellKey_in_range hq k hk
    simp [inBand, this.1, this.2]
  exact updateEnergyEvents_single (listMinE el, listMaxE el) _ hnd hall

theorem npDiff_eq_nil : ∀ {l : List ℚ}, l.length < 2 → npDiff l = []
  | [], _ => rfl
  | [_], _ => rfl
  | _ :: _ :: _, h => absurd h (by simp)

/-- With fewer than two distinct energies, the partitioner fails with the
numpy `ValueError` (empty `np.diff` reduced by `.min()`). -/
theorem constructEnergyEvents_few {el : List (ℚ × ℚ)}
    (h2 : (uniqueEnergies el).length < 2) :
    constructEnergyEvents el = Except.error PyErr.valueError := by
  rw [constructEnergyEvents, npDiff_eq_nil h2]
  rfl

/-- A malformed `ref_band_interest` or `band_interest` makes the
constructor fail its shape `assert` before any partitioning work. -/
theorem covInit_bad_shape (el : List (ℚ × ℚ)) (dt : ℚ) (bands : Option (List (List ℚ)))
    (ref : Option (List ℚ)) (hel : el ≠ [])
    (hbad : (∃ l, ref = some l ∧ l.length ≠ 2) ∨
            (∃ bs, bands = some bs ∧ ∃ b ∈ bs, ¬ b.length = 2)) :
    covInit el dt bands ref = Except.error PyErr.assertionError := by
  have hie : ¬ (el.isEmpty = true) := by
    simpa [List.isEmpty_iff] using hel
  rcases hbad with ⟨l, rfl, hlen⟩ | ⟨bs, rfl, b, hb, hlen⟩
  · simp only [covInit, if_neg hie, Option.getD_some, if_neg hlen]
  · have hall : bs.all (fun b => decide (b.length = 2)) = false := by
      rw [List.all_eq_false]
      exact ⟨b, hb, by simpa using hlen⟩
    cases ref with
    | none =>
        simp only [covInit, if_neg hie, Option.getD_some, Option.getD_none,
          List.length_cons, List.length_singleton, if_pos rfl, hall]
        simp
    | some l =>
        by_cases hl : l.length = 2
        · simp only [covInit, if_neg hie, Option.getD_some, if_pos hl, hall]
          simp
        · simp only [covInit, if_neg hie, Option.getD_some, if_neg hl]

/-- With well-shaped inputs the constructor gets past validation: it
either succeeds outright or fails inside the partitioner with the numpy
`ValueError` — never with an `AssertionError`. -/
theorem covInit_good_shape (el : List (ℚ × ℚ)) (dt : ℚ) (bands : Option (List (List ℚ)))
    (ref : Option (List ℚ)) (hel : el ≠ [])
    (href : ∀ l, ref = some l → l.length = 2)
    (hbands : ∀ bs, bands = some bs → ∀ b ∈ bs, b.length = 2) :
    covInit el dt bands ref = Except.error PyErr.valueError ∨
      (covInit el dt bands ref).isOk = true := by
  have hie : ¬ (el.isEmpty = true) := by
    simpa [List.isEmpty_iff] using hel
  have hreflen : (ref.getD [listMinE el, listMaxE el]).length = 2 := by
    cases ref with
    | none => rfl
    | some l => exact href l rfl
  have hall : (bands.getD []).all (fun b => decide (b.length = 2)) = true := by
    cases bands with
    | none => rfl
    | some bs =>
        rw [List.all_eq_true]
        intro b hb
        simpa using hbands bs rfl b hb
  cases hev : constructEnergyEvents el with
  | error err =>
      have herr := constructEnergyEvents_error hev
      subst herr
      left
      simp only [covInit, if_neg hie, if_pos hreflen, hall, if_pos rfl, hev]
      simp
  | ok ee0 =>
      right
      simp only [covInit, if_neg hie, if_pos hreflen, hall, if_pos rfl, hev,
        constructEnergyCovar_eq]
      simp [Except.isOk, Except.toBool]

/-- With no distinct-energy pair available the whole constructor fails
with the numpy `ValueError` (there is no explicit guard in the code). -/
theorem covInit_few_energies (el : List (ℚ × ℚ)) (dt : ℚ) (hel : el ≠ [])
    (h2 : (uniqueEnergies el).length < 2) :
    covInit el dt none none = Except.error PyErr.valueError := by
  have hie : ¬ (el.isEmpty = true) := by
    simpa [List.isEmpty_iff] using hel
  simp only [covInit, if_neg hie, Option.getD_none, List.length_cons, List.length_singleton,
    List.length_nil, if_pos rfl, constructEnergyEvents_few h2]
  simp

/-! ## Claim theorems -/

/-- C1.  The claim states that every accepted input is fully partitioned:
each event's arrival time lands in exactly one cell and the sorted union
of all cells' time lists equals the full input time set.  The code
violates this: for events `[(0,5),(1,7),(2,10)]` (unique energies
`{5,7,10}`, `least_count = 2`) the final-bin condition
`energy == max_energy - least_count*0.5` matches no key, so the cell
keyed `8` stays half-open `[7,9)` and the energy-10 event at time `2`
is assigned to no cell: the union of all cells is `[0,1]`, not
`[0,1,2]`. -/
theorem C1_partition_completeness_fails :
    constructEnergyEvents [((0 : ℚ), 5), (1, 7), (2, 10)]
        = Except.ok [(6, [0]), (8, [1])] ∧
      (∀ kv ∈ ([((6 : ℚ), [(0 : ℚ)]), (8, [1])] : EDict), (2 : ℚ) ∉ kv.2) ∧
      sortQ ((([((6 : ℚ), [(0 : ℚ)]), (8, [1])] : EDict).map Prod.snd).flatten)
        ≠ sortQ ([((0 : ℚ), 5), (1, 7), (2, 10)].map Prod.fst) := by
  refine ⟨by with_unfolding_all decide, by with_unfolding_all decide, by with_unfolding_all decide⟩

/-- C2.  The claim (and the spec's own worked example) states that for
unique energies `{5,7,10}` the cells are keyed `6` covering `[5,7)` and
`8` covering `[7,10]` with the maximum energy included.  The code does
produce exactly the two keys `6` and `8`, but the closing cell's
special-case test `energy == max_energy - least_count*0.5` compares `8`
with `9` and fails, so cell `8` stays half-open `[7,9)` and the
energy-10 event (arrival time `9` here) is excluded from it. -/
theorem C2_last_cell_excludes_max_energy :
    constructEnergyEvents [((3 : ℚ), 5), (4, 7), (9, 10)]
        = Except.ok [(6, [3]), (8, [4])] ∧
      (9 : ℚ) ∉ ((dictGet [((6 : ℚ), [(3 : ℚ)]), (8, [4])] 8).getD []) := by
  refine ⟨by with_unfolding_all decide, by with_unfolding_all decide⟩

/-- C3 (counterexample).  The claim states that with overlapping bands,
events of a cell whose key lies in the overlap are double-counted into
both bands' merged lists.  For cells `{6: [0], 8: [1,2]}` and bands
`(5,9)` and `(7,9)` (overlap `[7,9]`, containing the key `8`), the first
band consumes and deletes both cells, so the second band's entry (keyed
at its midpoint `8`) ends up empty: time `1` is not in it, refuting the
claim. -/
theorem C3_counterexample :
    inBand ((5 : ℚ), 9) 8 = true ∧ inBand ((7 : ℚ), 9) 8 = true ∧
    (1 : ℚ) ∈ ((dictGet [((6 : ℚ), [(0 : ℚ)]), (8, [1, 2])] 8).getD []) ∧
    updateEnergyEvents (some [((5 : ℚ), 9), (7, 9)]) [(6, [0]), (8, [1, 2])]
      = [(7, [0, 1, 2]), (8, [])] ∧
    ¬ ((1 : ℚ) ∈ ((dictGet (updateEnergyEvents (some [((5 : ℚ), 9), (7, 9)])
        [(6, [0]), (8, [1, 2])]) 8).getD [])) := by
  refine ⟨by with_unfolding_all decide, by with_unfolding_all decide, by with_unfolding_all decide, by with_unfolding_all decide, by with_unfolding_all decide⟩

/-- C3 (amended).  When two supplied bands overlap, each cell in the
overlap is merged into the band processed first and deleted from the
live mapping; the later band's merged list holds only the cells of its
range that the earlier band did not cover.  No event is double-counted. -/
theorem C3_overlap_first_band_wins (m : EDict) (b1 b2 : ℚ × ℚ)
    (hnd : (dictKeys m).Nodup)
    (hne : (b1.1 + b1.2) / 2 ≠ (b2.1 + b2.2) / 2) :
    dictGet (updateEnergyEvents (some [b1, b2]) m) ((b1.1 + b1.2) / 2)
      = some (((m.filter (fun kv => inBand b1 kv.1)).map Prod.snd).flatten) ∧
    dictGet (updateEnergyEvents (some [b1, b2]) m) ((b2.1 + b2.2) / 2)
      = some ((((m.filter (fun kv => !inBand b1 kv.1)).filter
          (fun kv => inBand b2 kv.1)).map Prod.snd).flatten) :=
  ⟨updateTwo_get_first b1 b2 m hnd hne, updateTwo_get_second b1 b2 m hnd hne⟩

/-- Witness for the amended C3 at a concrete overlapping pair of bands. -/
theorem C3_overlap_first_band_wins_witness :
    (dictKeys [((1 : ℚ), [(10 : ℚ)]), (3, [20])]).Nodup ∧
    ((0 : ℚ) + 2) / 2 ≠ ((2 : ℚ) + 4) / 2 ∧
    dictGet (updateEnergyEvents (some [((0 : ℚ), 2), (2, 4)])
        [(1, [10]), (3, [20])]) (((0 : ℚ) + 2) / 2) = some [10] ∧
    dictGet (updateEnergyEvents (some [((0 : ℚ), 2), (2, 4)])
        [(1, [10]), (3, [20])]) (((2 : ℚ) + 4) / 2) = some [20] :=
  have h := C3_overlap_first_band_wins [((1 : ℚ), [(10 : ℚ)]), (3, [20])]
    ((0 : ℚ), 2) ((2 : ℚ), 4) (by with_unfolding_all decide) (by with_unfolding_all decide)
  ⟨by with_unfolding_all decide, by with_unfolding_all decide, h.1, h.2⟩

/-- C4.  For every evaluated key, the reference stream is sorted
ascending, it is exactly (as a multiset) the concatenation of the event
lists of the other in-reference-range keys, and deleting the evaluated
key's own entry from the mapping leaves it unchanged — the evaluated
band's events never enter its own reference stream. -/
theorem C4_reference_stream_excludes_self (m : EDict) (r : ℚ × ℚ) (energy : ℚ) :
    (toaRefOf m r energy).Sorted (· ≤ ·) ∧
    (toaRefOf m r energy).Perm
      (((m.filter (fun kv => inBand r kv.1 && !decide (kv.1 = energy))).map Prod.snd).flatten) ∧
    toaRefOf m r energy = toaRefOf (dictDel m energy) r energy := by
  refine ⟨?_, ?_, ?_⟩
  · rw [toaRefOf]
    exact sortQ_sorted _
  · rw [toaRefOf_eq]
    exact sortQ_perm _
  · rw [toaRefOf_eq, toaRefOf_eq, dictDel, List.filter_filter]
    have hpt : ∀ kv ∈ m,
        ((inBand r kv.1 && !decide (kv.1 = energy)) && !decide (kv.1 = energy))
          = (inBand r kv.1 && !decide (kv.1 = energy)) := by
      intro kv _
      cases hkd : decide (kv.1 = energy) <;> simp [hkd]
    rw [List.filter_congr hpt]

/-- C5.  The Series Builder contract holds in the model — two series
built with the same `(tstart, tseg, dt)` always have the same length —
and consequently the per-band `assert len(lc.time) == len(lc_ref.time)`
in `_construct_energy_covar` never fails: the loop always returns its
full covariance mapping. -/
theorem C5_length_assertion_never_fails (bands : Option (List (ℚ × ℚ))) (m : EDict)
    (r : ℚ × ℚ) (dt tstart tseg : ℚ) :
    (∀ toa1 toa2 : List ℚ,
      (make_lightcurve toa1 dt tstart tseg).time.length
        = (make_lightcurve toa2 dt tstart tseg).time.length) ∧
    constructEnergyCovar bands m r dt tstart tseg
      = Except.ok ((initEnergyCovarKeys bands m).map
          (fun e => (e, covarOf m r dt tstart tseg e))) ∧
    constructEnergyCovar bands m r dt tstart tseg ≠ Except.error PyErr.assertionError := by
  refine ⟨?_, constructEnergyCovar_eq bands m r dt tstart tseg, ?_⟩
  · intro toa1 toa2
    rw [make_lightcurve_time_length, make_lightcurve_time_length]
  · rw [constructEnergyCovar_eq]
    simp

/-- C6.  `_compute_covariance` returns the off-diagonal `[0][1]` entry
of the 2×2 covariance matrix of the two count series, and that entry is
the unbiased sample covariance: the sum of products of mean-centred
samples divided by `N - 1`, `N` being the series length. -/
theorem C6_unbiased_sample_covariance (lc1 lc2 : Lightcurve)
    (h : lc1.counts.length = lc2.counts.length) :
    compute_covariance lc1 lc2 = np_cov lc1.counts lc2.counts 0 1 ∧
    compute_covariance lc1 lc2
      = (List.zipWith (fun x y => (x - listMean lc1.counts) * (y - listMean lc2.counts))
          lc1.counts lc2.counts).sum / ((lc1.counts.length : ℚ) - 1) := by
  refine ⟨rfl, ?_⟩
  rw [compute_covariance, np_cov]
  simp only [Fin.isValue, show (0 : Fin 2) = 0 from rfl, if_pos rfl,
    show ((1 : Fin 2) = 0) = False by simp, if_false]
  rw [centeredRow, centeredRow, List.zipWith_map_left, List.zipWith_map_right]
  simp

/-- Witness for C6 at two concrete equal-length count series. -/
theorem C6_unbiased_sample_covariance_witness :
    (Lightcurve.mk [0, 0] [1, 2]).counts.length
        = (Lightcurve.mk [0, 0] [3, 5]).counts.length ∧
    compute_covariance (Lightcurve.mk [0, 0] [1, 2]) (Lightcurve.mk [0, 0] [3, 5])
      = (List.zipWith (fun x y => (x - listMean (Lightcurve.mk [0, 0] [1, 2]).counts)
            * (y - listMean (Lightcurve.mk [0, 0] [3, 5]).counts))
          (Lightcurve.mk [0, 0] [1, 2]).counts (Lightcurve.mk [0, 0] [3, 5]).counts).sum
          / (((Lightcurve.mk [0, 0] [1, 2]).counts.length : ℚ) - 1) :=
  ⟨rfl, (C6_unbiased_sample_covariance (Lightcurve.mk [0, 0] [1, 2])
    (Lightcurve.mk [0, 0] [3, 5]) rfl).2⟩

/-- C7 (counterexample).  The claim states that an input whose events
all share one energy fails with `InsufficientDataError` via an explicit
guard.  No such class or guard exists: for `[(0,5),(1,5)]` construction
fails with the numpy `ValueError` raised by `np.diff(...).min()` on an
empty array, which is a different error. -/
theorem C7_counterexample :
    covInit [((0 : ℚ), 5), (1, 5)] 1 none none = Except.error PyErr.valueError ∧
    (Except.error PyErr.valueError : Except PyErr CovSpec)
      ≠ Except.error PyErr.insufficientDataError := by
  refine ⟨by with_unfolding_all decide, by decide⟩

/-- C7 (amended).  Construction on an input with fewer than 2 distinct
energy values (in particular, all events sharing one energy) does fail,
but via the unhandled numpy `ValueError` from reducing the empty
consecutive-difference array — there is no explicit guard and no
`InsufficientDataError` class. -/
theorem C7_single_energy_value_error (el : List (ℚ × ℚ)) (dt : ℚ) (hel : el ≠ [])
    (h2 : (uniqueEnergies el).length < 2) :
    covInit el dt none none = Except.error PyErr.valueError :=
  covInit_few_energies el dt hel h2

/-- Witness for the amended C7 on a single-energy input. -/
theorem C7_single_energy_value_error_witness :
    ([((0 : ℚ), 7), (1, 7)] : List (ℚ × ℚ)) ≠ [] ∧
    (uniqueEnergies [((0 : ℚ), 7), (1, 7)]).length < 2 ∧
    covInit [((0 : ℚ), 7), (1, 7)] 1 none none = Except.error PyErr.valueError :=
  ⟨by with_unfolding_all decide, by with_unfolding_all decide,
   C7_single_energy_value_error [((0 : ℚ), 7), (1, 7)] 1
     (by with_unfolding_all decide) (by with_unfolding_all decide)⟩

/-- C8 (counterexample).  The claim states a malformed
`ref_band_interest` makes construction raise `InvalidInputError`.  No
such class exists in the source: the shape check is a plain `assert`,
so a 3-element reference band raises `AssertionError` instead. -/
theorem C8_counterexample :
    covInit [((0 : ℚ), 5), (1, 7)] 1 none (some [5, 7, 9])
        = Except.error PyErr.assertionError ∧
    (Except.error PyErr.assertionError : Except PyErr CovSpec)
      ≠ Except.error PyErr.invalidInputError := by
  refine ⟨by with_unfolding_all decide, by decide⟩

/-- C8 (amended).  A `ref_band_interest` that is not a 2-element pair,
or any `band_interest` element that is not a 2-element pair, makes
construction fail the corresponding `assert` (an `AssertionError`, not
an `InvalidInputError`) before any partitioning work — the error is the
same whatever the event data.  With well-shaped inputs construction
passes validation and proceeds to partitioning: it never raises the
shape `AssertionError`, succeeding or failing only inside the
partitioner. -/
theorem C8_shape_check_asserts (el : List (ℚ × ℚ)) (dt : ℚ)
    (bands : Option (List (List ℚ))) (ref : Option (List ℚ)) (hel : el ≠ []) :
    ((∃ l, ref = some l ∧ l.length ≠ 2) ∨
        (∃ bs, bands = some bs ∧ ∃ b ∈ bs, ¬ b.length = 2) →
      covInit el dt bands ref = Except.error PyErr.assertionError) ∧
    ((∀ l, ref = some l → l.length = 2) →
        (∀ bs, bands = some bs → ∀ b ∈ bs, b.length = 2) →
      covInit el dt bands ref = Except.error PyErr.valueError ∨
        (covInit el dt bands ref).isOk = true) :=
  ⟨covInit_bad_shape el dt bands ref hel, covInit_good_shape el dt bands ref hel⟩

/-- Witness for the amended C8: a malformed band element trips the
`assert` even though the events themselves are fine. -/
theorem C8_shape_check_asserts_witness :
    ([((0 : ℚ), 5), (1, 7)] : List (ℚ × ℚ)) ≠ [] ∧
    covInit [((0 : ℚ), 5), (1, 7)] 1 (some [[1, 2, 3]]) none
      = Except.error PyErr.assertionError :=
  ⟨by with_unfolding_all decide,
   (C8_shape_check_asserts [((0 : ℚ), 5), (1, 7)] 1 (some [[1, 2, 3]]) none
      (by with_unfolding_all decide)).1
     (Or.inr ⟨[[1, 2, 3]], rfl, [1, 2, 3], by decide, by decide⟩)⟩

/-- C9.  Merging the partitioner's fine cells with the single band
`(min_energy, max_energy)` yields exactly one entry, keyed at the band
midpoint, whose event list is the concatenation of all fine-cell event
lists in cell order. -/
theorem C9_full_band_merge (el : List (ℚ × ℚ)) (m : EDict)
    (h : constructEnergyEvents el = Except.ok m) :
    updateEnergyEvents (some [(listMinE el, listMaxE el)]) m
      = [((listMinE el + listMaxE el) / 2, (m.map Prod.snd).flatten)] :=
  updateSingle_of_partition h

/-- Witness for C9 on a small three-energy event set. -/
theorem C9_full_band_merge_witness :
    constructEnergyEvents [((10 : ℚ), 1), (11, 2), (12, 3)]
        = Except.ok [(3 / 2, [10]), (5 / 2, [11, 12])] ∧
    updateEnergyEvents (some [(listMinE [((10 : ℚ), 1), (11, 2), (12, 3)],
        listMaxE [((10 : ℚ), 1), (11, 2), (12, 3)])]) [(3 / 2, [10]), (5 / 2, [11, 12])]
      = [((listMinE [((10 : ℚ), 1), (11, 2), (12, 3)]
            + listMaxE [((10 : ℚ), 1), (11, 2), (12, 3)]) / 2,
          (([(3 / 2, [(10 : ℚ)]), (5 / 2, [11, 12])] : EDict).map Prod.snd).flatten)] :=
  ⟨by with_unfolding_all decide,
   C9_full_band_merge [((10 : ℚ), 1), (11, 2), (12, 3)] [(3 / 2, [10]), (5 / 2, [11, 12])]
     (by with_unfolding_all decide)⟩

/-- C10.  When two supplied bands share the same midpoint, the later
band's pass resets the shared key's accumulated list to `[]` before
merging, so everything the earlier band gathered under that midpoint is
discarded; the final mapping holds, under that single midpoint key, only
the cells the later band still found live, and the covariance spectrum
has exactly one entry for that midpoint. -/
theorem C10_same_midpoint_reset (m : EDict) (b1 b2 : ℚ × ℚ) (r : ℚ × ℚ)
    (dt tstart tseg : ℚ) (hnd : (dictKeys m).Nodup)
    (hmid : (b1.1 + b1.2) / 2 = (b2.1 + b2.2) / 2) :
    dictGet (updateEnergyEvents (some [b1, b2]) m) ((b2.1 + b2.2) / 2)
      = some ((((m.filter (fun kv => !inBand b1 kv.1)).filter
          (fun kv => inBand b2 kv.1)).map Prod.snd).flatten) ∧
    initEnergyCovarKeys (some [b1, b2]) (updateEnergyEvents (some [b1, b2]) m)
      = [(b2.1 + b2.2) / 2] ∧
    constructEnergyCovar (some [b1, b2]) (updateEnergyEvents (some [b1, b2]) m) r dt tstart tseg
      = Except.ok [((b2.1 + b2.2) / 2,
          covarOf (updateEnergyEvents (some [b1, b2]) m) r dt tstart tseg
            ((b2.1 + b2.2) / 2))] := by
  have hkeys : initEnergyCovarKeys (some [b1, b2]) (updateEnergyEvents (some [b1, b2]) m)
      = [(b2.1 + b2.2) / 2] := by
    rw [initEnergyCovarKeys]
    simp only [List.foldl_cons, List.foldl_nil]
    rw [if_neg (List.not_mem_nil _), List.nil_append,
      if_pos (List.mem_singleton.2 hmid.symm), hmid]
  refine ⟨updateTwo_get_samemid b1 b2 m hnd hmid, hkeys, ?_⟩
  rw [constructEnergyCovar, hkeys, covarLoop_eq, List.map_singleton]

/-- Witness for C10: bands `(0,10)` and `(4,6)` share midpoint `5`; the
first band consumes every cell, so the surviving entry at `5` is empty
and the spectrum has the single key `5`. -/
theorem C10_same_midpoint_reset_witness :
    (dictKeys [((1 : ℚ), [(2 : ℚ)]), (3, [4])]).Nodup ∧
    ((0 : ℚ) + 10) / 2 = ((4 : ℚ) + 6) / 2 ∧
    dictGet (updateEnergyEvents (some [((0 : ℚ), 10), (4, 6)]) [(1, [2]), (3, [4])])
        (((4 : ℚ) + 6) / 2) = some [] ∧
    initEnergyCovarKeys (some [((0 : ℚ), 10), (4, 6)])
        (updateEnergyEvents (some [((0 : ℚ), 10), (4, 6)]) [(1, [2]), (3, [4])])
      = [((4 : ℚ) + 6) / 2] ∧
    constructEnergyCovar (some [((0 : ℚ), 10), (4, 6)])
        (updateEnergyEvents (some [((0 : ℚ), 10), (4, 6)]) [(1, [2]), (3, [4])])
        ((0 : ℚ), 10) 1 0 2
      = Except.ok [(((4 : ℚ) + 6) / 2,
          covarOf (updateEnergyEvents (some [((0 : ℚ), 10), (4, 6)]) [(1, [2]), (3, [4])])
            ((0 : ℚ), 10) 1 0 2 (((4 : ℚ) + 6) / 2))] :=
  have h := C10_same_midpoint_reset [((1 : ℚ), [(2 : ℚ)]), (3, [4])] ((0 : ℚ), 10)
    ((4 : ℚ), 6) ((0 : ℚ), 10) 1 0 2 (by with_unfolding_all decide)
    (by with_unfolding_all decide)
  ⟨by with_unfolding_all decide, by with_unfolding_all decide,
   by with_unfolding_all exact h.1, h.2.1, h.2.2⟩
